import Mathlib

/-!
Shallow embedding of the TarefasAPI in-memory record store
(`src/node-api/index.js`): an Express app with a `Map` keyed by
string-encoded sequential integers, a `nextId` counter, and CRUD
handlers on `/tasks`.  JSON values are embedded as an inductive type.
JS objects and the JS `Map` are both ordered string-keyed collections
whose write replaces in place when the key is present and appends
otherwise, so both are embedded as ordered association lists sharing
one set of operations (`getField?` = property read / `Map.get`,
`setField` = property assignment / `Map.set`, `delField` = `delete`
operator / `Map.delete`, `hasKey` = `in` / `Map.has`).
-/

namespace TarefasAPI

/-- JSON-compatible values (JS numbers restricted to integers; no claim
depends on fractional values). -/
inductive JsonVal where
  | null
  | bool (b : Bool)
  | num (n : Int)
  | str (s : String)
  | arr (xs : List JsonVal)
  | obj (fields : List (String × JsonVal))
deriving Repr

/-- A JS object: ordered list of (field name, value) pairs. -/
abbrev Obj := List (String × JsonVal)

/-- Key lookup: `o.k` on objects, `dataMap.get(k)` on the map
(first binding; keys are unique in JS). -/
def getField? {α : Type} (o : List (String × α)) (k : String) : Option α :=
  (o.find? (fun p => p.1 = k)).map (fun p => p.2)

/-- Key membership: truthiness of `o.k` presence / `dataMap.has(k)`. -/
def hasKey {α : Type} (o : List (String × α)) (k : String) : Bool :=
  o.any (fun p => p.1 = k)

/-- Key write: `o.k = v` / `dataMap.set(k, v)` — overwrite in place if the
key is present (JS keeps the original position), else append. -/
def setField {α : Type} (o : List (String × α)) (k : String) (v : α) :
    List (String × α) :=
  if o.any (fun p => p.1 = k) then
    o.map (fun p => if p.1 = k then (k, v) else p)
  else
    o ++ [(k, v)]

/-- Key removal: `delete o.k` / `dataMap.delete(k)`. -/
def delField {α : Type} (o : List (String × α)) (k : String) :
    List (String × α) :=
  o.filter (fun p => ¬ p.1 = k)

/-- JS truthiness of a JSON value (`false`, `0`, `""`, `null` are falsy). -/
def truthy : JsonVal → Bool
  | .null => false
  | .bool b => b
  | .num n => n != 0
  | .str s => !(s = "")
  | .arr _ => true
  | .obj _ => true

/-- Truthiness of `o.k` (a missing property is `undefined`, hence falsy). -/
def truthyField (o : Obj) (k : String) : Bool :=
  match getField? o k with
  | some v => truthy v
  | none => false

/-- `typeof o.k === 'boolean'` (missing property: `typeof undefined`, fails). -/
def isBoolField (o : Obj) (k : String) : Bool :=
  match getField? o k with
  | some (.bool _) => true
  | _ => false

/-- JS object spread `{ ...base, ...src }`: copy `src`'s properties onto
`base` in order, overwriting in place. -/
def spreadInto (base : Obj) (src : Obj) : Obj :=
  src.foldl (fun acc kv => setField acc kv.1 kv.2) base

/-- An HTTP response: status code and JSON body. -/
structure Resp where
  status : Nat
  body : JsonVal
deriving Repr

/-- The process-wide state: `dataMap` (a JS `Map` in insertion order) and
the `nextId` counter (lines 36-37 of `index.js`). -/
structure ApiState where
  dataMap : List (String × Obj)
  nextId : Nat
deriving Repr

/-- `(nextId).toString()`: decimal string of the counter. -/
def genId (n : Nat) : String := Nat.repr n

/-- Initial state: empty map, `nextId = 1`. -/
def initState : ApiState := ⟨[], 1⟩

/-- 404 body shared by the GET/DELETE/PATCH handlers. -/
def notFoundBody : JsonVal := .obj [("error", .str "Item não encontrado")]

/-- GET `/tasks` (lines 63-67): every entry as `{ id, ...value }`. -/
def getTasks (s : ApiState) : ApiState × Resp :=
  (s, ⟨200, .arr (s.dataMap.map
    (fun p => .obj (spreadInto [("id", .str p.1)] p.2)))⟩)

/-- GET `/tasks/:id` (lines 100-108). -/
def getTask (s : ApiState) (id : String) : ApiState × Resp :=
  if hasKey s.dataMap id then
    (s, ⟨200, .obj (spreadInto [("id", .str id)]
      ((getField? s.dataMap id).getD []))⟩)
  else
    (s, ⟨404, notFoundBody⟩)

/-- Lines 159-162 and 183-186: `if (task.value && task.value.id) delete
task.value.id`.  A truthy non-object `value` has no `.id` property to be
truthy; a falsy `value` short-circuits; so the delete runs exactly when
`value` is an object whose `id` is truthy (objects are always truthy). -/
def stripValueId (task : Obj) : Obj :=
  match getField? task "value" with
  | some (.obj o) =>
      if truthyField o "id" then setField task "value" (.obj (delField o "id"))
      else task
  | _ => task

/-- One error entry of the collision branch (line 165). -/
def collisionError (id : String) : Obj :=
  [("id", .str id), ("error", .str "ID já existe")]

/-- The loop of the array branch of POST `/tasks` (lines 155-171), carrying
the mutated state and the `addedTasks` / `errors` accumulators.  Each
iteration draws `id = (nextId++).toString()` (the counter is incremented
whether or not the collision branch fires), assigns `task.id = id`, strips
a truthy nested `value.id`, and then either records a collision error
(`dataMap` is unchanged by the counter increment, so the `has` check reads
the same map) or commits the task. -/
def postArrLoop : ApiState → List Obj → List Obj → List Obj →
    ApiState × List Obj × List Obj
  | s, [], added, errors => (s, added, errors)
  | s, task :: rest, added, errors =>
    if hasKey s.dataMap (genId s.nextId) then
      postArrLoop ⟨s.dataMap, s.nextId + 1⟩ rest added
        (errors ++ [collisionError (genId s.nextId)])
    else
      postArrLoop
        ⟨setField s.dataMap (genId s.nextId)
            (stripValueId (setField task "id" (.str (genId s.nextId)))),
          s.nextId + 1⟩
        rest
        (added ++ [stripValueId (setField task "id" (.str (genId s.nextId)))])
        errors

/-- POST `/tasks`, array branch (lines 150-177). -/
def postTasksArr (s : ApiState) (tasks : List Obj) : ApiState × Resp :=
  let r := postArrLoop s tasks [] []
  if r.2.2.length > 0 then
    (r.1, ⟨400, .obj [("errors", .arr (r.2.2.map .obj))]⟩)
  else
    (r.1, ⟨201, .arr (r.2.1.map .obj)⟩)

/-- POST `/tasks`, single-object branch (lines 178-190). -/
def postTasksOne (s : ApiState) (body : Obj) : ApiState × Resp :=
  let id := genId s.nextId
  let body' := stripValueId (setField body "id" (.str id))
  (⟨setField s.dataMap id body', s.nextId + 1⟩, ⟨201, .obj body'⟩)

/-- DELETE `/tasks/:id` (lines 211-220). -/
def deleteTask (s : ApiState) (id : String) : ApiState × Resp :=
  if hasKey s.dataMap id then
    (⟨delField s.dataMap id, s.nextId⟩,
      ⟨200, .obj [("message", .str "Item deletado com sucesso")]⟩)
  else
    (s, ⟨404, notFoundBody⟩)

/-- PATCH `/tasks/:id` (lines 246-256): whole-record replacement, the
response being the request body itself with status 201. -/
def patchTask (s : ApiState) (id : String) (body : Obj) : ApiState × Resp :=
  if hasKey s.dataMap id then
    (⟨setField s.dataMap id body, s.nextId⟩, ⟨201, .obj body⟩)
  else
    (s, ⟨404, notFoundBody⟩)

/-- PUT `/tasks/:id` (lines 291-308): 404 when absent; 400 unless
`updatedTask.title` and `updatedTask.describe` are truthy and
`typeof updatedTask.isCompleted === 'boolean'`; else store and return
`{ id, ...updatedTask }`. -/
def putTask (s : ApiState) (id : String) (body : Obj) : ApiState × Resp :=
  if !(hasKey s.dataMap id) then
    (s, ⟨404, .obj [("error", .str "Tarefa não encontrada")]⟩)
  else if !(truthyField body "title" && truthyField body "describe" &&
      isBoolField body "isCompleted") then
    (s, ⟨400, .obj [("error",
      .str "Dados inválidos ou campos obrigatórios ausentes")]⟩)
  else
    (⟨setField s.dataMap id body, s.nextId⟩,
      ⟨200, .obj (spreadInto [("id", .str id)] body)⟩)

/-- OPTIONS `/tasks` and `/tasks/:id` (lines 324-332): `sendStatus(200)`. -/
def optionsResp (s : ApiState) : ApiState × Resp := (s, ⟨200, .str "OK"⟩)

/-- One dispatched request (bodies restricted to the JSON shapes
`express.json()` delivers to these handlers: objects, or arrays of
objects for the batch branch). -/
inductive Op where
  | listAll
  | get (id : String)
  | postArr (tasks : List Obj)
  | postOne (body : Obj)
  | del (id : String)
  | patch (id : String) (body : Obj)
  | put (id : String) (body : Obj)
  | optionsTasks
  | optionsOne
deriving Repr

/-- Dispatch one request against the state. -/
def step (s : ApiState) : Op → ApiState × Resp
  | .listAll => getTasks s
  | .get id => getTask s id
  | .postArr tasks => postTasksArr s tasks
  | .postOne body => postTasksOne s body
  | .del id => deleteTask s id
  | .patch id body => patchTask s id body
  | .put id body => putTask s id body
  | .optionsTasks => optionsResp s
  | .optionsOne => optionsResp s

/-- Run a sequence of requests, keeping only the final state. -/
def run (s : ApiState) : List Op → ApiState
  | [] => s
  | op :: ops => run (step s op).1 ops

/-- A state the server can actually be in, starting from `initState`. -/
def Reachable (s : ApiState) : Prop := ∃ ops : List Op, run initState ops = s

/-- Whether a request creates records (both POST branches). -/
def isCreate : Op → Bool
  | .postArr _ => true
  | .postOne _ => true
  | _ => false

/-- The counter values consumed by the batch loop, one per array element
(line 156: `(nextId++).toString()` runs once per iteration). -/
def countersFrom : Nat → List Obj → List Nat
  | _, [] => []
  | c, _ :: rest => c :: countersFrom (c + 1) rest

/-- Counter values a request consumes when dispatched at counter `c`. -/
def issuedAt (c : Nat) : Op → List Nat
  | .postArr tasks => countersFrom c tasks
  | .postOne _ => [c]
  | _ => []

/-- Counter values consumed along a request sequence, in issue order. -/
def issuedNats : ApiState → List Op → List Nat
  | _, [] => []
  | s, op :: ops => issuedAt s.nextId op ++ issuedNats (step s op).1 ops

/-- Identifiers (strings) assigned along a request sequence, in order. -/
def issuedIds (s : ApiState) (ops : List Op) : List String :=
  (issuedNats s ops).map genId

/-- Numeric value of a decimal digit character. -/
def digitVal (c : Char) : Nat := c.toNat - 48

/-- Numeric value of a decimal digit string (most significant first). -/
def decVal (l : List Char) : Nat :=
  l.foldl (fun acc c => acc * 10 + digitVal c) 0

/-- Integer value of an identifier string. -/
def idVal (s : String) : Nat := decVal s.data

/-- Reference decimal printer: digits of `n`, most significant first.
`Nat.repr` is proved below to produce exactly these characters. -/
def toDecAux (n : Nat) : List Char :=
  if n < 10 then [Nat.digitChar n]
  else toDecAux (n / 10) ++ [Nat.digitChar (n % 10)]
termination_by n
decreasing_by exact Nat.div_lt_self (by omega) (by omega)

/-- Every key of the store is an identifier generated from a counter value
below `nextId` — the invariant behind the unreachability of the batch
collision branch. -/
def KeysBounded (s : ApiState) : Prop :=
  ∀ k, hasKey s.dataMap k = true → ∃ n, n < s.nextId ∧ k = genId n

end TarefasAPI

namespace TarefasAPI

/-! ### Decimal identifiers: `Nat.repr` round-trip and injectivity -/

lemma digitVal_digitChar (d : Nat) (h : d < 10) :
    digitVal (Nat.digitChar d) = d := by
  interval_cases d <;> rfl

lemma decVal_append (l : List Char) (c : Char) :
    decVal (l ++ [c]) = decVal l * 10 + digitVal c := by
  simp [decVal, List.foldl_append]

lemma decVal_toDecAux (n : Nat) : decVal (toDecAux n) = n := by
  induction n using Nat.strong_induction_on with
  | _ n ih =>
    rw [toDecAux]
    by_cases h : n < 10
    · simp only [h, if_true]
      simp [decVal, digitVal_digitChar n h]
    · simp only [h, if_false]
      rw [decVal_append, ih (n / 10) (Nat.div_lt_self (by omega) (by omega)),
        digitVal_digitChar _ (Nat.mod_lt _ (by omega))]
      omega

lemma toDigitsCore_eq_toDecAux (f : Nat) :
    ∀ (n : Nat) (l : List Char), n < f →
      Nat.toDigitsCore 10 f n l = toDecAux n ++ l := by
  induction f with
  | zero => intro n l h; omega
  | succ f ih =>
    intro n l h
    rw [Nat.toDigitsCore]
    by_cases hd : n / 10 = 0
    · have hn : n < 10 := by omega
      simp only [hd, if_true]
      rw [toDecAux]
      simp [hn, Nat.mod_eq_of_lt hn]
    · have hn : ¬ n < 10 := by omega
      have hlt : n / 10 < f := by omega
      simp only [hd, if_false]
      rw [ih (n / 10) _ hlt]
      conv_rhs => rw [toDecAux]
      simp [hn]

lemma genId_data (n : Nat) : (genId n).data = toDecAux n := by
  show (Nat.repr n).data = toDecAux n
  rw [Nat.repr, Nat.toDigits, toDigitsCore_eq_toDecAux (n + 1) n [] (by omega)]
  simp [List.asString]

lemma idVal_genId (n : Nat) : idVal (genId n) = n := by
  rw [idVal, genId_data, decVal_toDecAux]

lemma genId_injective : Function.Injective genId := by
  intro m n h
  have := congrArg idVal h
  rwa [idVal_genId, idVal_genId] at this

end TarefasAPI

namespace TarefasAPI

/-! ### Ordered association list lemmas (JS objects and the `Map`) -/

section Assoc
variable {α : Type}

lemma getField?_cons (p : String × α) (rest : List (String × α)) (k : String) :
    getField? (p :: rest) k = if p.1 = k then some p.2 else getField? rest k := by
  by_cases h : p.1 = k
  · simp [getField?, List.find?_cons_of_pos, h]
  · simp [getField?, List.find?_cons_of_neg, h]

lemma hasKey_iff (o : List (String × α)) (k : String) :
    hasKey o k = true ↔ ∃ v, getField? o k = some v := by
  induction o with
  | nil => simp [hasKey, getField?]
  | cons p rest ih =>
    by_cases h : p.1 = k
    · simp [hasKey, getField?_cons, h]
    · simp only [hasKey, List.any_cons] at ih ⊢
      simp [getField?_cons, h, ih]

lemma hasKey_eq_false_iff (o : List (String × α)) (k : String) :
    hasKey o k = false ↔ getField? o k = none := by
  rw [← Bool.not_eq_true, hasKey_iff]
  cases h : getField? o k <;> simp [h]

lemma getField?_map_replace (o : List (String × α)) (k : String) (v : α)
    (k' : String) (hne : k' ≠ k) :
    getField? (o.map (fun p => if p.1 = k then (k, v) else p)) k'
      = getField? o k' := by
  induction o with
  | nil => rfl
  | cons p rest ih =>
    by_cases hp : p.1 = k
    · simp only [List.map_cons, hp, if_true]
      rw [getField?_cons, getField?_cons]
      have h1 : ¬ ((k, v).1 = k') := fun h => hne h.symm
      have h2 : ¬ (p.1 = k') := fun h => hne (by rw [← h, hp])
      simp [h1, h2, ih]
    · simp only [List.map_cons, hp, if_false]
      rw [getField?_cons, getField?_cons]
      by_cases hpk : p.1 = k' <;> simp [hpk, ih]

lemma getField?_map_replace_self (o : List (String × α)) (k : String) (v : α)
    (hmem : hasKey o k = true) :
    getField? (o.map (fun p => if p.1 = k then (k, v) else p)) k = some v := by
  induction o with
  | nil => simp [hasKey] at hmem
  | cons p rest ih =>
    by_cases hp : p.1 = k
    · simp only [List.map_cons, hp, if_true]
      rw [getField?_cons]
      simp
    · simp only [List.map_cons, hp, if_false]
      rw [getField?_cons]
      simp only [hp, if_false]
      apply ih
      simpa [hasKey, hp] using hmem

lemma getField?_setField (o : List (String × α)) (k : String) (v : α)
    (k' : String) :
    getField? (setField o k v) k'
      = if k' = k then some v else getField? o k' := by
  rw [setField]
  by_cases hmem : o.any (fun p => p.1 = k)
  · rw [if_pos hmem]
    by_cases hk : k' = k
    · subst hk
      rw [getField?_map_replace_self o k' v hmem, if_pos rfl]
    · rw [getField?_map_replace o k v k' hk, if_neg hk]
  · rw [if_neg hmem]
    have hkf : hasKey o k = false := by
      rw [hasKey]
      exact Bool.eq_false_iff.mpr hmem
    have hnone : getField? o k = none := (hasKey_eq_false_iff o k).mp hkf
    have hfnone : o.find? (fun p => p.1 = k) = none := by
      rw [getField?] at hnone
      exact Option.map_eq_none'.mp hnone
    by_cases hk : k' = k
    · subst hk
      rw [getField?, List.find?_append, hfnone]
      simp [List.find?]
    · rw [getField?, List.find?_append]
      have hpa : ¬ ((k, v).1 = k') := fun h => hk h.symm
      have hsingle : List.find? (fun p => p.1 = k') [(k, v)] = none :=
        List.find?_cons_of_neg _ (by simpa using hpa)
      cases hfind : o.find? (fun p => p.1 = k') with
      | none => simp [hfind, hsingle, getField?, hk]
      | some q => simp [hfind, getField?, hk]

lemma hasKey_setField_iff (o : List (String × α)) (k : String) (v : α)
    (k' : String) :
    hasKey (setField o k v) k' = true ↔ (k' = k ∨ hasKey o k' = true) := by
  rw [hasKey_iff, hasKey_iff]
  by_cases hk : k' = k <;> simp [getField?_setField, hk]

lemma getField?_delField (o : List (String × α)) (k k' : String) :
    getField? (delField o k) k' = if k' = k then none else getField? o k' := by
  induction o with
  | nil => by_cases hk : k' = k <;> simp [delField, getField?, hk]
  | cons p rest ih =>
    rw [delField] at ih ⊢
    by_cases hp : p.1 = k
    · rw [List.filter_cons_of_neg (by simpa using hp)]
      rw [ih, getField?_cons]
      by_cases hk : k' = k
      · simp [hk]
      · have : ¬ (p.1 = k') := fun h => hk (by rw [← h, hp])
        simp [hk, this]
    · rw [List.filter_cons_of_pos (by simpa using hp)]
      rw [getField?_cons, getField?_cons, ih]
      by_cases hpk : p.1 = k'
      · have : ¬ (k' = k) := fun h => hp (by rw [hpk, h])
        simp [hpk, this]
      · simp [hpk]

lemma hasKey_delField_iff (o : List (String × α)) (k k' : String) :
    hasKey (delField o k) k' = true ↔ (k' ≠ k ∧ hasKey o k' = true) := by
  rw [hasKey_iff, hasKey_iff]
  by_cases hk : k' = k <;> simp [getField?_delField, hk]

lemma hasKey_delField_self (o : List (String × α)) (k : String) :
    hasKey (delField o k) k = false := by
  rw [← Bool.not_eq_true, hasKey_delField_iff]
  simp

lemma getField?_mem (o : List (String × α)) (k : String) (v : α)
    (h : getField? o k = some v) : (k, v) ∈ o := by
  rw [getField?] at h
  cases hfind : o.find? (fun p => p.1 = k) with
  | none => rw [hfind] at h; exact absurd h (by simp)
  | some q =>
    rw [hfind] at h
    have hv : q.2 = v := by simpa using h
    have hq' := List.find?_some hfind
    have hq : q.1 = k := by simpa using hq'
    have hmem := List.mem_of_find?_eq_some hfind
    have hqe : q = (k, v) := by
      cases q
      simp_all
    rwa [hqe] at hmem

end Assoc

/-! ### Spread lemmas: `{ id, ...value }` -/

lemma spreadInto_nil (base : Obj) : spreadInto base [] = base := rfl

lemma spreadInto_cons (base : Obj) (kv : String × JsonVal) (rest : Obj) :
    spreadInto base (kv :: rest) = spreadInto (setField base kv.1 kv.2) rest := rfl

lemma getField?_spreadInto_of_none (src : Obj) :
    ∀ (base : Obj) (k : String), getField? src k = none →
      getField? (spreadInto base src) k = getField? base k := by
  induction src with
  | nil => intro base k _; rfl
  | cons kv rest ih =>
    intro base k h
    rw [getField?_cons] at h
    by_cases hk : kv.1 = k
    · simp [hk] at h
    · simp only [hk, if_false] at h
      rw [spreadInto_cons, ih _ k h, getField?_setField]
      have : ¬ (k = kv.1) := fun hh => hk hh.symm
      simp [this]

lemma getField?_spreadInto_const (src : Obj) :
    ∀ (base : Obj) (k : String) (x : JsonVal),
      (∀ w, (k, w) ∈ src → w = x) → getField? base k = some x →
      getField? (spreadInto base src) k = some x := by
  induction src with
  | nil => intro base k x _ hbase; exact hbase
  | cons kv rest ih =>
    intro base k x hall hbase
    rw [spreadInto_cons]
    refine ih _ k x (fun w hw => hall w (List.mem_cons_of_mem _ hw)) ?_
    rw [getField?_setField]
    by_cases hk : k = kv.1
    · have : kv.2 = x := hall kv.2 (by rw [hk]; exact List.mem_cons_self _ _)
      simp [hk, this]
    · simp [hk, hbase]

end TarefasAPI

namespace TarefasAPI

/-! ### The key-bounding invariant and the batch loop -/

lemma keysBounded_init : KeysBounded initState := by
  intro k h
  simp [hasKey, initState] at h

lemma keysBounded_fresh (s : ApiState) (h : KeysBounded s) {m : Nat}
    (hm : s.nextId ≤ m) : hasKey s.dataMap (genId m) = false := by
  cases hx : hasKey s.dataMap (genId m)
  · rfl
  · obtain ⟨n, hn, he⟩ := h _ hx
    have hmn : m = n := genId_injective he
    omega

lemma postArrLoop_nextId (tasks : List Obj) :
    ∀ (s : ApiState) (a e : List Obj),
      (postArrLoop s tasks a e).1.nextId = s.nextId + tasks.length := by
  induction tasks with
  | nil => intro s a e; rfl
  | cons t rest ih =>
    intro s a e
    rw [postArrLoop]
    by_cases h : hasKey s.dataMap (genId s.nextId) = true
    · rw [if_pos h, ih]
      simp
      omega
    · rw [if_neg h, ih]
      simp
      omega

lemma postArrLoop_counts (tasks : List Obj) :
    ∀ (s : ApiState) (a e : List Obj),
      (postArrLoop s tasks a e).2.1.length + (postArrLoop s tasks a e).2.2.length
        = a.length + e.length + tasks.length := by
  induction tasks with
  | nil => intro s a e; rfl
  | cons t rest ih =>
    intro s a e
    rw [postArrLoop]
    by_cases h : hasKey s.dataMap (genId s.nextId) = true
    · rw [if_pos h, ih]
      simp
      omega
    · rw [if_neg h, ih]
      simp
      omega

lemma postArrLoop_preserves (tasks : List Obj) :
    ∀ (s : ApiState) (a e : List Obj) (id : String) (o : Obj),
      getField? s.dataMap id = some o →
      getField? (postArrLoop s tasks a e).1.dataMap id = some o := by
  induction tasks with
  | nil => intro s a e id o h; exact h
  | cons t rest ih =>
    intro s a e id o h
    rw [postArrLoop]
    by_cases hc : hasKey s.dataMap (genId s.nextId) = true
    · rw [if_pos hc]
      exact ih _ _ _ _ _ h
    · rw [if_neg hc]
      apply ih
      rw [getField?_setField]
      have hne : ¬ (id = genId s.nextId) := by
        intro he
        rw [he] at h
        have : hasKey s.dataMap (genId s.nextId) = true :=
          (hasKey_iff _ _).mpr ⟨o, h⟩
        exact hc this
      rw [if_neg hne]
      exact h

lemma postArrLoop_keysBounded_noErrors (tasks : List Obj) :
    ∀ (s : ApiState) (a e : List Obj), KeysBounded s →
      KeysBounded (postArrLoop s tasks a e).1 ∧
        (postArrLoop s tasks a e).2.2 = e := by
  induction tasks with
  | nil => intro s a e h; exact ⟨h, rfl⟩
  | cons t rest ih =>
    intro s a e h
    rw [postArrLoop]
    have hfresh : hasKey s.dataMap (genId s.nextId) = false :=
      keysBounded_fresh s h (Nat.le_refl _)
    rw [if_neg (by simp [hfresh])]
    apply ih
    intro k hk
    rw [hasKey_setField_iff] at hk
    show ∃ n, n < s.nextId + 1 ∧ k = genId n
    cases hk with
    | inl hkeq => exact ⟨s.nextId, by omega, hkeq⟩
    | inr hmem =>
      obtain ⟨n, hn, he⟩ := h _ hmem
      exact ⟨n, by omega, he⟩

lemma keysBounded_step (s : ApiState) (op : Op) (h : KeysBounded s) :
    KeysBounded (step s op).1 := by
  cases op with
  | listAll => exact h
  | get id =>
    simp only [step, getTask]
    split
    · exact h
    · exact h
  | postArr tasks =>
    simp only [step, postTasksArr]
    split
    · exact (postArrLoop_keysBounded_noErrors tasks s [] [] h).1
    · exact (postArrLoop_keysBounded_noErrors tasks s [] [] h).1
  | postOne body =>
    simp only [step, postTasksOne]
    intro k hk
    simp only at hk
    rw [hasKey_setField_iff] at hk
    show ∃ n, n < s.nextId + 1 ∧ k = genId n
    cases hk with
    | inl hkeq => exact ⟨s.nextId, by omega, hkeq⟩
    | inr hmem =>
      obtain ⟨n, hn, he⟩ := h _ hmem
      exact ⟨n, by omega, he⟩
  | del id =>
    simp only [step, deleteTask]
    split
    · intro k hk
      simp only at hk
      rw [hasKey_delField_iff] at hk
      exact h _ hk.2
    · exact h
  | patch id body =>
    simp only [step, patchTask]
    split
    · case isTrue hc =>
      intro k hk
      simp only at hk
      rw [hasKey_setField_iff] at hk
      cases hk with
      | inl hkeq => subst hkeq; exact h _ hc
      | inr hmem => exact h _ hmem
    · exact h
  | put id body =>
    simp only [step, putTask]
    split
    · exact h
    · case isFalse hc =>
      split
      · exact h
      · intro k hk
        simp only at hk
        rw [hasKey_setField_iff] at hk
        cases hk with
        | inl hkeq =>
          have hc' : hasKey s.dataMap id = true := by
            cases hx : hasKey s.dataMap id
            · rw [hx] at hc; simp at hc
            · rfl
          subst hkeq
          exact h _ hc'
        | inr hmem => exact h _ hmem
  | optionsTasks => exact h
  | optionsOne => exact h

lemma keysBounded_run (ops : List Op) :
    ∀ s : ApiState, KeysBounded s → KeysBounded (run s ops) := by
  induction ops with
  | nil => intro s h; exact h
  | cons op rest ih => intro s h; exact ih _ (keysBounded_step s op h)

lemma reachable_keysBounded (s : ApiState) (h : Reachable s) : KeysBounded s := by
  obtain ⟨ops, rfl⟩ := h
  exact keysBounded_run ops initState keysBounded_init

end TarefasAPI

namespace TarefasAPI

/-! ### Counter monotonicity and issued identifiers -/

lemma countersFrom_length (l : List Obj) :
    ∀ c, (countersFrom c l).length = l.length := by
  induction l with
  | nil => intro c; rfl
  | cons t rest ih => intro c; simp [countersFrom, ih]

lemma countersFrom_mem (l : List Obj) :
    ∀ c n, n ∈ countersFrom c l ↔ (c ≤ n ∧ n < c + l.length) := by
  induction l with
  | nil => intro c n; simp [countersFrom]
  | cons t rest ih =>
    intro c n
    rw [countersFrom, List.mem_cons, ih (c + 1) n]
    simp only [List.length_cons]
    omega

lemma countersFrom_pairwise (l : List Obj) :
    ∀ c, List.Pairwise (· < ·) (countersFrom c l) := by
  induction l with
  | nil => intro c; exact List.Pairwise.nil
  | cons t rest ih =>
    intro c
    rw [countersFrom]
    refine List.Pairwise.cons ?_ (ih (c + 1))
    intro n hn
    rw [countersFrom_mem] at hn
    omega

lemma step_nextId (s : ApiState) (op : Op) :
    (step s op).1.nextId = s.nextId + (issuedAt s.nextId op).length := by
  cases op with
  | listAll => rfl
  | get id => simp only [step, getTask]; split <;> simp [issuedAt]
  | postArr tasks =>
    simp only [step, postTasksArr, issuedAt]
    split <;> simp [postArrLoop_nextId, countersFrom_length]
  | postOne body => simp [step, postTasksOne, issuedAt]
  | del id => simp only [step, deleteTask]; split <;> simp [issuedAt]
  | patch id body => simp only [step, patchTask]; split <;> simp [issuedAt]
  | put id body =>
    simp only [step, putTask]
    split
    · simp [issuedAt]
    · split <;> simp [issuedAt]
  | optionsTasks => rfl
  | optionsOne => rfl

lemma step_nextId_ge (s : ApiState) (op : Op) :
    s.nextId ≤ (step s op).1.nextId := by
  rw [step_nextId]
  omega

lemma run_nextId_ge (ops : List Op) :
    ∀ s : ApiState, s.nextId ≤ (run s ops).nextId := by
  induction ops with
  | nil => intro s; exact Nat.le_refl _
  | cons op rest ih =>
    intro s
    exact le_trans (step_nextId_ge s op) (ih _)

lemma issuedAt_bounds (s : ApiState) (op : Op) (n : Nat)
    (h : n ∈ issuedAt s.nextId op) :
    s.nextId ≤ n ∧ n < (step s op).1.nextId := by
  rw [step_nextId]
  cases op with
  | listAll => simp [issuedAt] at h
  | get id => simp [issuedAt] at h
  | postArr tasks =>
    simp only [issuedAt] at h ⊢
    rw [countersFrom_mem] at h
    rw [countersFrom_length]
    omega
  | postOne body =>
    simp only [issuedAt, List.mem_singleton] at h
    simp only [issuedAt, List.length_singleton]
    omega
  | del id => simp [issuedAt] at h
  | patch id body => simp [issuedAt] at h
  | put id body => simp [issuedAt] at h
  | optionsTasks => simp [issuedAt] at h
  | optionsOne => simp [issuedAt] at h

lemma issuedNats_lb (ops : List Op) :
    ∀ (s : ApiState) (n : Nat), n ∈ issuedNats s ops → s.nextId ≤ n := by
  induction ops with
  | nil => intro s n h; simp [issuedNats] at h
  | cons op rest ih =>
    intro s n h
    rw [issuedNats, List.mem_append] at h
    cases h with
    | inl h => exact (issuedAt_bounds s op n h).1
    | inr h => exact le_trans (step_nextId_ge s op) (ih _ n h)

lemma issuedAt_pairwise (s : ApiState) (op : Op) :
    List.Pairwise (· < ·) (issuedAt s.nextId op) := by
  cases op with
  | postArr tasks => exact countersFrom_pairwise tasks s.nextId
  | postOne body => simp [issuedAt]
  | listAll => simp [issuedAt]
  | get id => simp [issuedAt]
  | del id => simp [issuedAt]
  | patch id body => simp [issuedAt]
  | put id body => simp [issuedAt]
  | optionsTasks => simp [issuedAt]
  | optionsOne => simp [issuedAt]

lemma issuedNats_pairwise (ops : List Op) :
    ∀ s : ApiState, List.Pairwise (· < ·) (issuedNats s ops) := by
  induction ops with
  | nil => intro s; exact List.Pairwise.nil
  | cons op rest ih =>
    intro s
    rw [issuedNats, List.pairwise_append]
    refine ⟨issuedAt_pairwise s op, ih _, ?_⟩
    intro a ha b hb
    have h1 := (issuedAt_bounds s op a ha).2
    have h2 := issuedNats_lb rest _ b hb
    omega

lemma run_append (l₁ : List Op) :
    ∀ (s : ApiState) (l₂ : List Op), run s (l₁ ++ l₂) = run (run s l₁) l₂ := by
  induction l₁ with
  | nil => intro s l₂; rfl
  | cons op rest ih =>
    intro s l₂
    rw [List.cons_append, run, run]
    exact ih _ l₂

/-! ### Non-creating requests never add keys -/

lemma no_new_key_step (s : ApiState) (op : Op) (k : String)
    (hop : isCreate op = false) (h : hasKey s.dataMap k = false) :
    hasKey (step s op).1.dataMap k = false := by
  cases op with
  | listAll => exact h
  | get id => simp only [step, getTask]; split <;> exact h
  | postArr tasks => simp [isCreate] at hop
  | postOne body => simp [isCreate] at hop
  | del id =>
    simp only [step, deleteTask]
    split
    · cases hx : hasKey (delField s.dataMap id) k
      · rfl
      · rw [hasKey_delField_iff] at hx
        rw [hx.2] at h
        cases h
    · exact h
  | patch id body =>
    simp only [step, patchTask]
    split
    · case isTrue hc =>
      cases hx : hasKey (setField s.dataMap id body) k
      · rfl
      · rw [hasKey_setField_iff] at hx
        cases hx with
        | inl he => subst he; rw [hc] at h; cases h
        | inr hmem => rw [hmem] at h; cases h
    · exact h
  | put id body =>
    simp only [step, putTask]
    split
    · exact h
    · case isFalse hc =>
      split
      · exact h
      · cases hx : hasKey (setField s.dataMap id body) k
        · rfl
        · rw [hasKey_setField_iff] at hx
          cases hx with
          | inl he =>
            subst he
            cases hy : hasKey s.dataMap k
            · rw [hy] at hc; simp at hc
            · rw [hy] at h; cases h
          | inr hmem => rw [hmem] at h; cases h
  | optionsTasks => exact h
  | optionsOne => exact h

lemma no_new_key_run (k : String) (ops : List Op) :
    ∀ s : ApiState, (∀ op ∈ ops, isCreate op = false) →
      hasKey s.dataMap k = false → hasKey (run s ops).dataMap k = false := by
  induction ops with
  | nil => intro s _ h; exact h
  | cons op rest ih =>
    intro s hops h
    rw [run]
    exact ih _ (fun o ho => hops o (List.mem_cons_of_mem _ ho))
      (no_new_key_step s op k (hops op (List.mem_cons_self _ _)) h)

end TarefasAPI

namespace TarefasAPI

/-! ### Characterizing the nested `value.id` strip -/

lemma stripValueId_of_value_obj (t : Obj) (o : List (String × JsonVal))
    (hv : getField? t "value" = some (JsonVal.obj o)) :
    stripValueId t
      = if truthyField o "id" = true
          then setField t "value" (JsonVal.obj (delField o "id")) else t := by
  rw [stripValueId, hv]

lemma stripValueId_getField?_ne (t : Obj) (k : String) (hk : ¬ k = "value") :
    getField? (stripValueId t) k = getField? t k := by
  cases hv : getField? t "value" with
  | none => simp only [stripValueId, hv]
  | some v =>
    cases v with
    | obj o =>
      rw [stripValueId_of_value_obj t o hv]
      by_cases ht : truthyField o "id" = true
      · rw [if_pos ht, getField?_setField, if_neg hk]
      · rw [if_neg ht]
    | null => simp only [stripValueId, hv]
    | bool b => simp only [stripValueId, hv]
    | num n => simp only [stripValueId, hv]
    | str s => simp only [stripValueId, hv]
    | arr xs => simp only [stripValueId, hv]

end TarefasAPI

namespace TarefasAPI

/-! ### Claim C1: batch create on id collision -/

/-- C1 (counterexample).  The claim says that whenever batch create detects
an id collision, no record of the batch is committed and the store mapping
is unchanged.  In the store state `{"2" ↦ {}}` with `nextId = 1`, posting
the two-element array `[{}, {}]` yields the 400 collision response (listing
the colliding id `"2"`), yet the first record of the batch HAS been
committed under the fresh key `"1"`: the loop mutates the map before the
error sweep runs, so the batch is not all-or-nothing. -/
theorem c1_counterexample :
    (step ⟨[("2", [])], 1⟩ (Op.postArr [[], []])).2.status = 400 ∧
    hasKey (⟨[("2", [])], 1⟩ : ApiState).dataMap "1" = false ∧
    getField? (step ⟨[("2", [])], 1⟩ (Op.postArr [[], []])).1.dataMap "1"
      = some [("id", JsonVal.str "1")] ∧
    (step ⟨[("2", [])], 1⟩ (Op.postArr [[], []])).2.body
      = .obj [("errors", .arr [.obj (collisionError "2")])] :=
  ⟨rfl, rfl, rfl, rfl⟩

/-- C1 (amended).  When batch create detects collisions, the 400 response
lists every colliding id and no colliding record overwrites an existing
entry (pre-existing entries are preserved verbatim), but the batch is NOT
all-or-nothing: each non-colliding record is committed during the loop
before the error response is sent, `nextId` advances by the full batch
length, and every array element ends up either committed (`addedTasks`) or
error-listed. -/
theorem c1_amended (s : ApiState) (tasks : List Obj) :
    (postArrLoop s tasks [] []).1.nextId = s.nextId + tasks.length ∧
    (∀ id o, getField? s.dataMap id = some o →
      getField? (postArrLoop s tasks [] []).1.dataMap id = some o) ∧
    (postArrLoop s tasks [] []).2.1.length
        + (postArrLoop s tasks [] []).2.2.length = tasks.length ∧
    ((postArrLoop s tasks [] []).2.2 ≠ [] →
      step s (Op.postArr tasks)
        = ((postArrLoop s tasks [] []).1,
            ⟨400, .obj [("errors",
              .arr ((postArrLoop s tasks [] []).2.2.map .obj))]⟩)) ∧
    ((postArrLoop s tasks [] []).2.2 = [] →
      step s (Op.postArr tasks)
        = ((postArrLoop s tasks [] []).1,
            ⟨201, .arr ((postArrLoop s tasks [] []).2.1.map .obj)⟩)) := by
  refine ⟨postArrLoop_nextId tasks s [] [],
    fun id o h => postArrLoop_preserves tasks s [] [] id o h,
    by have := postArrLoop_counts tasks s [] []; simpa using this,
    ?_, ?_⟩
  · intro hne
    simp only [step, postTasksArr]
    rw [if_pos (List.length_pos.mpr hne)]
  · intro he
    simp only [step, postTasksArr]
    rw [if_neg (by rw [he]; simp)]

/-- C1 (witness for the amended theorem): concrete instantiations of both
response shapes. -/
theorem c1_amended_witness :
    (postArrLoop ⟨[("2", [])], 1⟩ [[], []] [] []).1.nextId = 3 ∧
    step ⟨[("2", [])], 1⟩ (Op.postArr [[], []])
      = ((postArrLoop ⟨[("2", [])], 1⟩ [[], []] [] []).1,
          ⟨400, .obj [("errors",
            .arr ((postArrLoop ⟨[("2", [])], 1⟩ [[], []] [] []).2.2.map .obj))]⟩) ∧
    step initState (Op.postArr [[]])
      = ((postArrLoop initState [[]] [] []).1,
          ⟨201, .arr ((postArrLoop initState [[]] [] []).2.1.map .obj)⟩) :=
  ⟨(c1_amended ⟨[("2", [])], 1⟩ [[], []]).1,
    (c1_amended ⟨[("2", [])], 1⟩ [[], []]).2.2.2.1 (List.cons_ne_nil _ _),
    (c1_amended initState [[]]).2.2.2.2 rfl⟩

/-! ### Claim C2: PUT validation -/

/-- C2 (counterexample).  The claim says ReplaceOne succeeds if and only if
`title` is a non-empty STRING (and likewise `describe`), but the handler
only tests truthiness: with the record at id `"1"` present, a body whose
`title` is the NUMBER 5 succeeds with 200 and mutates the store, although
`title` is not a string. -/
theorem c2_counterexample :
    (step ⟨[("1", [])], 2⟩
        (Op.put "1" [("title", JsonVal.num 5), ("describe", JsonVal.str "d"),
          ("isCompleted", JsonVal.bool true)])).2.status = 200 ∧
    getField? [("title", JsonVal.num 5), ("describe", JsonVal.str "d"),
        ("isCompleted", JsonVal.bool true)] "title" = some (JsonVal.num 5) ∧
    getField? (step ⟨[("1", [])], 2⟩
        (Op.put "1" [("title", JsonVal.num 5), ("describe", JsonVal.str "d"),
          ("isCompleted", JsonVal.bool true)])).1.dataMap "1"
      = some [("title", JsonVal.num 5), ("describe", JsonVal.str "d"),
          ("isCompleted", JsonVal.bool true)] ∧
    getField? (⟨[("1", [])], 2⟩ : ApiState).dataMap "1" = some [] :=
  ⟨rfl, rfl, rfl, rfl⟩

/-- C2 (amended).  For an id present in the store, ReplaceOne succeeds if
and only if `title` is truthy, `describe` is truthy (any truthy value, not
necessarily a string), and `isCompleted` is of boolean type; when the
checks fail it returns 400 with no mutation, and when the id is absent it
returns 404 with no mutation. -/
theorem c2_amended (s : ApiState) (id : String) (body : Obj) :
    ((step s (Op.put id body)).2.status = 200 ↔
      (hasKey s.dataMap id = true ∧ truthyField body "title" = true ∧
        truthyField body "describe" = true ∧
        isBoolField body "isCompleted" = true)) ∧
    (hasKey s.dataMap id = false →
      step s (Op.put id body)
        = (s, ⟨404, .obj [("error", .str "Tarefa não encontrada")]⟩)) ∧
    (hasKey s.dataMap id = true →
      (truthyField body "title" && truthyField body "describe" &&
        isBoolField body "isCompleted") = false →
      step s (Op.put id body)
        = (s, ⟨400, .obj [("error",
            .str "Dados inválidos ou campos obrigatórios ausentes")]⟩)) ∧
    (hasKey s.dataMap id = true →
      (truthyField body "title" && truthyField body "describe" &&
        isBoolField body "isCompleted") = true →
      step s (Op.put id body)
        = (⟨setField s.dataMap id body, s.nextId⟩,
            ⟨200, .obj (spreadInto [("id", .str id)] body)⟩)) := by
  by_cases hk : hasKey s.dataMap id = true
  · by_cases hv : (truthyField body "title" && truthyField body "describe" &&
        isBoolField body "isCompleted") = true
    · have hstep : step s (Op.put id body)
          = (⟨setField s.dataMap id body, s.nextId⟩,
              ⟨200, .obj (spreadInto [("id", .str id)] body)⟩) := by
        simp only [step, putTask]
        rw [if_neg (by rw [hk]; simp), if_neg (by rw [hv]; simp)]
      obtain ⟨⟨h1, h2⟩, h3⟩ :
          ((truthyField body "title" = true ∧
            truthyField body "describe" = true) ∧
            isBoolField body "isCompleted" = true) := by
        rw [← Bool.and_eq_true, ← Bool.and_eq_true]
        exact hv
      refine ⟨?_, ?_, ?_, fun _ _ => hstep⟩
      · rw [hstep]
        simp [hk, h1, h2, h3]
      · intro hkf; rw [hkf] at hk; cases hk
      · intro _ hvf; rw [hvf] at hv; cases hv
    · have hvf : (truthyField body "title" && truthyField body "describe" &&
          isBoolField body "isCompleted") = false := Bool.eq_false_iff.mpr hv
      have hstep : step s (Op.put id body)
          = (s, ⟨400, .obj [("error",
              .str "Dados inválidos ou campos obrigatórios ausentes")]⟩) := by
        simp only [step, putTask]
        rw [if_neg (by rw [hk]; simp), if_pos (by rw [hvf]; simp)]
      refine ⟨?_, ?_, fun _ _ => hstep, ?_⟩
      · rw [hstep]
        constructor
        · intro h; exact absurd (show (400 : Nat) = 200 from h) (by decide)
        · rintro ⟨_, h1, h2, h3⟩
          rw [h1, h2, h3] at hvf
          simp at hvf
      · intro hkf; rw [hkf] at hk; cases hk
      · intro _ hvt; rw [hvt] at hvf; cases hvf
  · have hkf : hasKey s.dataMap id = false := Bool.eq_false_iff.mpr hk
    have hstep : step s (Op.put id body)
        = (s, ⟨404, .obj [("error", .str "Tarefa não encontrada")]⟩) := by
      simp only [step, putTask]
      rw [if_pos (by rw [hkf]; simp)]
    refine ⟨?_, fun _ => hstep, ?_, ?_⟩
    · rw [hstep]
      constructor
      · intro h; exact absurd (show (404 : Nat) = 200 from h) (by decide)
      · rintro ⟨h1, _⟩; rw [h1] at hkf; cases hkf
    · intro hkt _; rw [hkt] at hkf; cases hkf
    · intro hkt _; rw [hkt] at hkf; cases hkf

/-- C2 (witness for the amended theorem): all three outcomes at concrete
inputs. -/
theorem c2_amended_witness :
    step ⟨[("1", [])], 2⟩
        (Op.put "1" [("title", JsonVal.str "a"), ("describe", JsonVal.str "b"),
          ("isCompleted", JsonVal.bool true)])
      = (⟨setField (⟨[("1", [])], 2⟩ : ApiState).dataMap "1"
            [("title", JsonVal.str "a"), ("describe", JsonVal.str "b"),
              ("isCompleted", JsonVal.bool true)], 2⟩,
          ⟨200, .obj (spreadInto [("id", .str "1")]
            [("title", JsonVal.str "a"), ("describe", JsonVal.str "b"),
              ("isCompleted", JsonVal.bool true)])⟩) ∧
    step ⟨[("1", [])], 2⟩ (Op.put "1" [("title", JsonVal.str "")])
      = (⟨[("1", [])], 2⟩, ⟨400, .obj [("error",
          .str "Dados inválidos ou campos obrigatórios ausentes")]⟩) ∧
    step ⟨[("1", [])], 2⟩ (Op.put "9" [])
      = (⟨[("1", [])], 2⟩, ⟨404, .obj [("error",
          .str "Tarefa não encontrada")]⟩) :=
  ⟨(c2_amended ⟨[("1", [])], 2⟩ "1"
      [("title", JsonVal.str "a"), ("describe", JsonVal.str "b"),
        ("isCompleted", JsonVal.bool true)]).2.2.2 rfl rfl,
    (c2_amended ⟨[("1", [])], 2⟩ "1" [("title", JsonVal.str "")]).2.2.1 rfl rfl,
    (c2_amended ⟨[("1", [])], 2⟩ "9" []).2.1 rfl⟩

end TarefasAPI

namespace TarefasAPI

/-! ### Claim C3: PATCH replaces verbatim -/

/-- C3 (counterexample).  The claim says PatchOne returns the new record
annotated with `id`.  In the reachable state obtained by creating one
record, `PATCH /tasks/1` with body `{a: 1}` succeeds with 201, but the
response body is the input verbatim and carries NO `id` field: the handler
responds with `body` itself, without injecting the identifier. -/
theorem c3_counterexample :
    hasKey (run initState [Op.postOne []]).dataMap "1" = true ∧
    (step (run initState [Op.postOne []])
        (Op.patch "1" [("a", JsonVal.num 1)])).2
      = ⟨201, .obj [("a", JsonVal.num 1)]⟩ ∧
    getField? [("a", JsonVal.num 1)] "id" = none :=
  ⟨rfl, rfl, rfl⟩

/-- C3 (amended).  For every id present in the store, PatchOne replaces the
entire stored record with the input record verbatim (no field-level merge;
fields present only in the old record disappear, since afterwards the
stored record is exactly the input) and returns the input record itself —
NOT annotated with `id` — with status 201. -/
theorem c3_amended (s : ApiState) (id : String) (body : Obj)
    (h : hasKey s.dataMap id = true) :
    step s (Op.patch id body)
      = (⟨setField s.dataMap id body, s.nextId⟩, ⟨201, .obj body⟩) ∧
    getField? (step s (Op.patch id body)).1.dataMap id = some body := by
  have hs : step s (Op.patch id body)
      = (⟨setField s.dataMap id body, s.nextId⟩, ⟨201, .obj body⟩) := by
    simp only [step, patchTask]
    rw [if_pos h]
  refine ⟨hs, ?_⟩
  rw [hs]
  show getField? (setField s.dataMap id body) id = some body
  rw [getField?_setField, if_pos rfl]

/-- C3 (witness for the amended theorem). -/
theorem c3_amended_witness :
    step (run initState [Op.postOne []]) (Op.patch "1" [("b", JsonVal.str "x")])
      = (⟨setField (run initState [Op.postOne []]).dataMap "1"
            [("b", JsonVal.str "x")],
          (run initState [Op.postOne []]).nextId⟩,
        ⟨201, .obj [("b", JsonVal.str "x")]⟩) ∧
    getField? (step (run initState [Op.postOne []])
        (Op.patch "1" [("b", JsonVal.str "x")])).1.dataMap "1"
      = some [("b", JsonVal.str "x")] :=
  c3_amended (run initState [Op.postOne []]) "1" [("b", JsonVal.str "x")] rfl

/-! ### Claim C4: responses carry `id` equal to the store key -/

/-- C4 (counterexample).  The claim says every response materializing a
stored record carries an `id` field equal to the store key.  In a reachable
state: after creating record `"1"`, (a) `PATCH /tasks/1` with body `{}`
succeeds with 201 but its response body has no `id` field at all, and
(b) after `PATCH /tasks/1` stores `{id: "9"}`, `GET /tasks/1` responds
with `id` equal to `"9"`, not the key `"1"` — the record's own `id` field
overrides the injected key in `{ id, ...value }`. -/
theorem c4_counterexample :
    hasKey (run initState [Op.postOne []]).dataMap "1" = true ∧
    (step (run initState [Op.postOne []]) (Op.patch "1" [])).2
      = ⟨201, .obj []⟩ ∧
    getField? ([] : Obj) "id" = none ∧
    (step (run initState
        [Op.postOne [], Op.patch "1" [("id", JsonVal.str "9")]])
        (Op.get "1")).2
      = ⟨200, .obj [("id", JsonVal.str "9")]⟩ :=
  ⟨rfl, rfl, rfl, rfl⟩

/-- C4 (amended).  Get and ListAll inject the store key as the `id` field
of the materialized record, but a record-level `id` binding takes
precedence: whenever every `id` binding of the stored record equals the
key (in particular when the record has no `id` field of its own), the Get
response and the corresponding ListAll element carry `id` equal to the
key.  PATCH's success response is the input verbatim and performs no
injection (see the C3 theorems). -/
theorem c4_amended (s : ApiState) (k : String) (v : Obj)
    (hv : getField? s.dataMap k = some v)
    (hid : ∀ w, ("id", w) ∈ v → w = JsonVal.str k) :
    step s (Op.get k)
      = (s, ⟨200, .obj (spreadInto [("id", .str k)] v)⟩) ∧
    getField? (spreadInto [("id", .str k)] v) "id" = some (.str k) ∧
    JsonVal.obj (spreadInto [("id", .str k)] v)
      ∈ s.dataMap.map (fun p => JsonVal.obj (spreadInto [("id", .str p.1)] p.2)) ∧
    (step s Op.listAll).2
      = ⟨200, .arr (s.dataMap.map
          (fun p => JsonVal.obj (spreadInto [("id", .str p.1)] p.2)))⟩ := by
  have hk : hasKey s.dataMap k = true := (hasKey_iff _ _).mpr ⟨v, hv⟩
  refine ⟨?_, ?_, ?_, rfl⟩
  · simp only [step, getTask]
    rw [if_pos hk, hv]
    rfl
  · exact getField?_spreadInto_const v [("id", JsonVal.str k)] "id"
      (JsonVal.str k) hid rfl
  · exact List.mem_map_of_mem _ (getField?_mem _ _ _ hv)

/-- C4 (witness for the amended theorem): the record created by POST has
`id` bound to its key, and Get materializes it with `id = "1"`. -/
theorem c4_amended_witness :
    step (run initState [Op.postOne []]) (Op.get "1")
      = (run initState [Op.postOne []],
          ⟨200, .obj (spreadInto [("id", .str "1")] [("id", JsonVal.str "1")])⟩) ∧
    getField? (spreadInto [("id", .str "1")] [("id", JsonVal.str "1")]) "id"
      = some (.str "1") := by
  have h := c4_amended (run initState [Op.postOne []]) "1"
    [("id", JsonVal.str "1")] rfl
    (by
      intro w hw
      have hw' := List.mem_singleton.mp hw
      exact congrArg Prod.snd hw')
  exact ⟨h.1, h.2.1⟩

/-! ### Claim C5: the collision branch is unreachable from reachable states -/

/-- C5.  In every reachable store state, the defensive id-collision branch
of batch create is dead: since every key of the store is the decimal
string of a counter value strictly below `nextId` and freshly generated
identifiers use counter values at or above `nextId`, no generated id can
already be a key, so the `ID já existe` error list stays empty and the
batch POST always answers 201, never the 400 collision response. -/
theorem c5_collision_unreachable (s : ApiState) (hs : Reachable s)
    (tasks : List Obj) :
    (postArrLoop s tasks [] []).2.2 = [] ∧
    (step s (Op.postArr tasks)).2.status = 201 := by
  have hkb := reachable_keysBounded s hs
  have hne := (postArrLoop_keysBounded_noErrors tasks s [] [] hkb).2
  refine ⟨hne, ?_⟩
  simp only [step, postTasksArr]
  rw [if_neg (by rw [hne]; simp)]

/-- C5 (witness): the empty store is reachable and a two-element batch
commits without collision errors. -/
theorem c5_witness :
    (postArrLoop initState [[("t", JsonVal.str "a")], []] [] []).2.2 = [] ∧
    (step initState (Op.postArr [[("t", JsonVal.str "a")], []])).2.status = 201 :=
  c5_collision_unreachable initState ⟨[], rfl⟩ [[("t", JsonVal.str "a")], []]

/-! ### Claim C6: identifiers strictly increase and are never reused -/

/-- C6.  Along every request sequence from the initial state, the
identifiers assigned by successive CreateOne/CreateBatch calls are
strictly increasing as integers (each drawn decimal string decodes to a
strictly larger number than all earlier ones), and an identifier whose
record has been removed by a successful DeleteOne is never assigned again
by any later creation in the sequence. -/
theorem c6_ids_increasing_never_reused (ops : List Op) :
    List.Pairwise (fun a b => idVal a < idVal b) (issuedIds initState ops) ∧
    (∀ pre suf id, ops = pre ++ Op.del id :: suf →
      hasKey (run initState pre).dataMap id = true →
      id ∉ issuedIds (run initState (pre ++ [Op.del id])) suf) := by
  constructor
  · rw [issuedIds]
    refine List.Pairwise.map genId ?_ (issuedNats_pairwise ops initState)
    intro a b hab
    rw [idVal_genId, idVal_genId]
    exact hab
  · intro pre suf id hsplit hdel hmem
    rw [issuedIds, List.mem_map] at hmem
    obtain ⟨m, hm, hgm⟩ := hmem
    have hkb : KeysBounded (run initState pre) :=
      keysBounded_run pre initState keysBounded_init
    obtain ⟨n, hn, hid⟩ := hkb id hdel
    have hrw : run initState (pre ++ [Op.del id])
        = (step (run initState pre) (Op.del id)).1 := by
      rw [run_append]
      rfl
    have hnext : (step (run initState pre) (Op.del id)).1.nextId
        = (run initState pre).nextId := by
      simp only [step, deleteTask]
      split
      · rfl
      · rfl
    have hml := issuedNats_lb suf _ m hm
    rw [hrw, hnext] at hml
    have hmn : m = n := genId_injective (hgm.trans hid)
    omega

/-- C6 (witness): create, delete, create again; the issued ids `"1", "2"`
strictly increase and the deleted id `"1"` is not re-issued. -/
theorem c6_witness :
    List.Pairwise (fun a b => idVal a < idVal b)
      (issuedIds initState [Op.postOne [], Op.del "1", Op.postOne []]) ∧
    "1" ∉ issuedIds (run initState ([Op.postOne []] ++ [Op.del "1"]))
      [Op.postOne []] := by
  have h := c6_ids_increasing_never_reused
    [Op.postOne [], Op.del "1", Op.postOne []]
  exact ⟨h.1, h.2 [Op.postOne []] [Op.postOne []] "1" rfl rfl⟩

end TarefasAPI

namespace TarefasAPI

/-! ### Claim C7: CreateOne behavior -/

/-- C7 (counterexample).  The claim says CreateOne removes a nested `id`
field found under the record's `value` key before storage.  Posting the
record `{value: {id: 0}}` to the empty store stores and returns a record
whose nested `value.id` is still `0`: the guard `task.value && task.value.id`
tests truthiness, and the number `0` is falsy, so the nested `id` is
preserved rather than removed. -/
theorem c7_counterexample :
    step initState (Op.postOne [("value", JsonVal.obj [("id", JsonVal.num 0)])])
      = (⟨[("1", [("value", JsonVal.obj [("id", JsonVal.num 0)]),
              ("id", JsonVal.str "1")])], 2⟩,
          ⟨201, .obj [("value", JsonVal.obj [("id", JsonVal.num 0)]),
              ("id", JsonVal.str "1")]⟩) ∧
    getField? [("value", JsonVal.obj [("id", JsonVal.num 0)]),
        ("id", JsonVal.str "1")] "value"
      = some (JsonVal.obj [("id", JsonVal.num 0)]) :=
  ⟨rfl, rfl⟩

/-- C7 (amended).  For every store state and single-object input record,
CreateOne assigns the decimal string of the current `nextId` as the
record's `id`, increments `nextId`, stores the normalized record under the
new identifier, returns it with status 201, and never fails; the nested
`value.id` is removed only when `value` is an object whose `id` is truthy,
and is preserved (along with the rest of `value`) when `value.id` is
falsy. -/
theorem c7_amended (s : ApiState) (body : Obj) :
    step s (Op.postOne body)
      = (⟨setField s.dataMap (genId s.nextId)
            (stripValueId (setField body "id" (.str (genId s.nextId)))),
          s.nextId + 1⟩,
        ⟨201, .obj (stripValueId (setField body "id" (.str (genId s.nextId))))⟩) ∧
    getField? (stripValueId (setField body "id" (.str (genId s.nextId)))) "id"
      = some (.str (genId s.nextId)) ∧
    (∀ o, getField? body "value" = some (JsonVal.obj o) →
      truthyField o "id" = false →
      getField? (stripValueId (setField body "id" (.str (genId s.nextId)))) "value"
        = some (JsonVal.obj o)) ∧
    (∀ o, getField? body "value" = some (JsonVal.obj o) →
      truthyField o "id" = true →
      getField? (stripValueId (setField body "id" (.str (genId s.nextId)))) "value"
        = some (JsonVal.obj (delField o "id"))) := by
  have hval : getField? (setField body "id" (.str (genId s.nextId))) "value"
      = getField? body "value" := by
    rw [getField?_setField, if_neg (by decide)]
  refine ⟨rfl, ?_, ?_, ?_⟩
  · rw [stripValueId_getField?_ne _ "id" (by decide), getField?_setField,
      if_pos rfl]
  · intro o ho ht
    have hv' : getField? (setField body "id" (.str (genId s.nextId))) "value"
        = some (JsonVal.obj o) := by rw [hval]; exact ho
    rw [stripValueId_of_value_obj _ o hv', if_neg (by rw [ht]; simp)]
    exact hv'
  · intro o ho ht
    have hv' : getField? (setField body "id" (.str (genId s.nextId))) "value"
        = some (JsonVal.obj o) := by rw [hval]; exact ho
    rw [stripValueId_of_value_obj _ o hv', if_pos ht, getField?_setField,
      if_pos rfl]

/-- C7 (witness for the amended theorem): both normalization outcomes at
concrete inputs (`value.id = 7` truthy and stripped, `value.id = ""` falsy
and preserved). -/
theorem c7_amended_witness :
    getField? (stripValueId (setField
        [("value", JsonVal.obj [("id", JsonVal.num 7)])] "id"
        (.str (genId initState.nextId)))) "id"
      = some (.str (genId initState.nextId)) ∧
    getField? (stripValueId (setField
        [("value", JsonVal.obj [("id", JsonVal.num 7)])] "id"
        (.str (genId initState.nextId)))) "value"
      = some (JsonVal.obj (delField [("id", JsonVal.num 7)] "id")) ∧
    getField? (stripValueId (setField
        [("value", JsonVal.obj [("id", JsonVal.str "")])] "id"
        (.str (genId initState.nextId)))) "value"
      = some (JsonVal.obj [("id", JsonVal.str "")]) :=
  ⟨(c7_amended initState [("value", JsonVal.obj [("id", JsonVal.num 7)])]).2.1,
    (c7_amended initState
      [("value", JsonVal.obj [("id", JsonVal.num 7)])]).2.2.2
      [("id", JsonVal.num 7)] rfl rfl,
    (c7_amended initState
      [("value", JsonVal.obj [("id", JsonVal.str "")])]).2.2.1
      [("id", JsonVal.str "")] rfl rfl⟩

/-! ### Claim C8: DeleteOne / Get on absent ids -/

/-- C8.  A successful DeleteOne(id) followed by Get(id) with no intervening
creation yields NotFound (404, `Item não encontrado`), regardless of any
intervening non-creating requests; and for an id absent from the store,
Get(id) and DeleteOne(id) each return 404 and leave the state unchanged. -/
theorem c8_delete_then_get (s : ApiState) (id : String) (ops : List Op) :
    (hasKey s.dataMap id = true →
      (∀ op ∈ ops, isCreate op = false) →
      step (run (step s (Op.del id)).1 ops) (Op.get id)
        = (run (step s (Op.del id)).1 ops, ⟨404, notFoundBody⟩)) ∧
    (hasKey s.dataMap id = false →
      step s (Op.get id) = (s, ⟨404, notFoundBody⟩) ∧
      step s (Op.del id) = (s, ⟨404, notFoundBody⟩)) := by
  constructor
  · intro hk hops
    have h1 : hasKey (step s (Op.del id)).1.dataMap id = false := by
      simp only [step, deleteTask]
      rw [if_pos hk]
      exact hasKey_delField_self _ _
    have h2 := no_new_key_run id ops _ hops h1
    show getTask (run (step s (Op.del id)).1 ops) id
      = (run (step s (Op.del id)).1 ops, ⟨404, notFoundBody⟩)
    rw [getTask, if_neg (by rw [h2]; simp)]
  · intro hk
    constructor
    · simp only [step, getTask]
      rw [if_neg (by rw [hk]; simp)]
    · simp only [step, deleteTask]
      rw [if_neg (by rw [hk]; simp)]

/-- C8 (witness): create `"1"`, delete it, list (a non-creating request),
then Get `"1"` is 404; and Get/Delete of the absent id `"2"` on the empty
store are 404 no-ops. -/
theorem c8_witness :
    step (run (step (run initState [Op.postOne []]) (Op.del "1")).1
        [Op.listAll]) (Op.get "1")
      = (run (step (run initState [Op.postOne []]) (Op.del "1")).1
          [Op.listAll], ⟨404, notFoundBody⟩) ∧
    step initState (Op.get "2") = (initState, ⟨404, notFoundBody⟩) ∧
    step initState (Op.del "2") = (initState, ⟨404, notFoundBody⟩) := by
  have hA := (c8_delete_then_get (run initState [Op.postOne []]) "1"
    [Op.listAll]).1 rfl
    (by
      intro op hop
      have h := List.mem_singleton.mp hop
      rw [h]
      rfl)
  have hB := (c8_delete_then_get initState "2" []).2 rfl
  exact ⟨hA, hB.1, hB.2⟩

/-! ### Claim C9: truthiness guard of the nested `value.id` strip -/

/-- C9.  The nested `value.id` stripping of CreateOne/CreateBatch applies
only when `value` and `value.id` are both truthy: whenever the record's
`value` is an object whose `id` is falsy, the record is stored unchanged
(the nested `id` is preserved), witnessed concretely for `value.id` equal
to `0`, the empty string, `false`, and `null`; and when `value.id` is
truthy the nested `id` is removed. -/
theorem c9_strip_truthiness (body : Obj) (o : List (String × JsonVal)) :
    (getField? body "value" = some (JsonVal.obj o) →
      truthyField o "id" = false → stripValueId body = body) ∧
    (getField? body "value" = some (JsonVal.obj o) →
      truthyField o "id" = true →
      stripValueId body = setField body "value"
        (JsonVal.obj (delField o "id"))) ∧
    stripValueId [("value", JsonVal.obj [("id", JsonVal.num 0)])]
      = [("value", JsonVal.obj [("id", JsonVal.num 0)])] ∧
    stripValueId [("value", JsonVal.obj [("id", JsonVal.str "")])]
      = [("value", JsonVal.obj [("id", JsonVal.str "")])] ∧
    stripValueId [("value", JsonVal.obj [("id", JsonVal.bool false)])]
      = [("value", JsonVal.obj [("id", JsonVal.bool false)])] ∧
    stripValueId [("value", JsonVal.obj [("id", JsonVal.null)])]
      = [("value", JsonVal.obj [("id", JsonVal.null)])] ∧
    stripValueId [("value", JsonVal.obj [("id", JsonVal.num 7)])]
      = [("value", JsonVal.obj [])] := by
  refine ⟨?_, ?_, rfl, rfl, rfl, rfl, rfl⟩
  · intro hv ht
    rw [stripValueId_of_value_obj body o hv, if_neg (by rw [ht]; simp)]
  · intro hv ht
    rw [stripValueId_of_value_obj body o hv, if_pos ht]

/-- C9 (witness): both guard outcomes at concrete inputs. -/
theorem c9_witness :
    stripValueId [("value", JsonVal.obj [("x", JsonVal.num 1),
        ("id", JsonVal.num 0)])]
      = [("value", JsonVal.obj [("x", JsonVal.num 1), ("id", JsonVal.num 0)])] ∧
    stripValueId [("value", JsonVal.obj [("id", JsonVal.num 3)])]
      = setField [("value", JsonVal.obj [("id", JsonVal.num 3)])] "value"
          (JsonVal.obj (delField [("id", JsonVal.num 3)] "id")) :=
  ⟨(c9_strip_truthiness [("value", JsonVal.obj [("x", JsonVal.num 1),
      ("id", JsonVal.num 0)])] [("x", JsonVal.num 1), ("id", JsonVal.num 0)]).1
      rfl rfl,
    (c9_strip_truthiness [("value", JsonVal.obj [("id", JsonVal.num 3)])]
      [("id", JsonVal.num 3)]).2.1 rfl rfl⟩

/-! ### Claim C10: POST of an empty array -/

/-- C10.  For every store state, POST `/tasks` with an empty array body
succeeds with status 201 and an empty array as response body, and leaves
both the store mapping and `nextId` unchanged (the returned state is the
input state itself). -/
theorem c10_empty_batch (s : ApiState) :
    step s (Op.postArr []) = (s, ⟨201, .arr []⟩) := rfl

end TarefasAPI
